import Mathlib

/-!
Shallow embedding of the networking core of the kay actor system
(`src/networking.rs`, server backend), together with theorems about its
turn-synchronization, batching, framing and dispatch behaviour.

Modelling conventions:
* bytes are `Nat` values below 256 (the encoders take values mod 256);
* Rust `usize` arithmetic is `Nat`, with explicit wrapping (`% 2 ^ w`) where
  overflow matters; `u32` casts are explicit `% 4294967296`;
* a Rust panic (out-of-bounds index, `read_u32` on a short slice, underflow in
  a debug build) is modelled as `none`;
* the WebSocket transport is abstracted away: outbound frames are returned as
  lists of byte lists, inbound frames are consumed from a list of byte lists;
  a `WouldBlock` read is the end of that list;
* the compact packet encoding (external `compact` crate) is abstracted as the
  opaque byte list it produces.
-/

namespace Kay

/-- Little-endian byte encoding: `leBytes k n` is the sequence of `k` bytes
written by `write_uXX::<LittleEndian>` for the value `n` (truncated mod
`256 ^ k`, which is what the Rust integer casts do). -/
def leBytes : Nat → Nat → List Nat
  | 0, _ => []
  | k + 1, n => n % 256 :: leBytes k (n / 256)

/-- Little-endian `u32` read of the first four bytes of a buffer
(`LittleEndian::read_u32`). The Rust call panics on a shorter slice; every
use below guards the length first, so the junk value 0 is never reached. -/
def readLE4 : List Nat → Nat
  | b0 :: b1 :: b2 :: b3 :: _ => b0 + 256 * b1 + 65536 * b2 + 16777216 * b3
  | _ => 0

/-- The mutable state threaded through `dispatch_message` / `dispatch_batch`:
the peer's observed turn counter `n_turns`, the stall counter
`n_turns_since_own_turn` (both fields of `Connection` in the source, passed
as `&mut usize`), and the raw payloads handed to local inboxes
(`inbox.put_raw`). -/
structure DispatchState where
  n_turns : Nat
  n_turns_since_own_turn : Nat
  delivered : List (List Nat)
  deriving DecidableEq

/-- `dispatch_message` (src/networking.rs:437-482). A message whose first two
bytes are zero (ShortTypeId 0) is a turn marker: the peer turn counter is
overwritten with the carried `u32` value, the stall counter is incremented,
and the result asks for a stall iff the incremented counter is at least 10.
Any other message is delivered to an inbox. `none` models the panics: index
out of bounds on `data[0]`/`data[1]`, `read_u32` on fewer than four bytes,
and `&data[2]` on a two-byte message. -/
def dispatchMessage (data : List Nat) (s : DispatchState) :
    Option (DispatchState × Bool) :=
  match data with
  | b0 :: b1 :: rest =>
    if b0 = 0 ∧ b1 = 0 then
      if rest.length < 4 then none
      else
        some ({ s with
                  n_turns := readLE4 rest,
                  n_turns_since_own_turn := s.n_turns_since_own_turn + 1 },
              decide (10 ≤ s.n_turns_since_own_turn + 1))
    else
      match rest with
      | [] => none
      | _ :: _ => some ({ s with delivered := s.delivered ++ [data] }, false)
  | _ => none

/-- The cursor loop of `dispatch_batch` (src/networking.rs:405-435): read a
`u32` length, hand the following `length` bytes to `dispatch_message`,
advance, and accumulate the stall requests with `||`. `none` models the two
panics: `read_u32` with fewer than four bytes left, and the slice
`data[pos..pos + message_size]` running past the end of the batch. -/
def dispatchBatchAux (s : DispatchState) (one : Bool) :
    List Nat → Option (DispatchState × Bool)
  | [] => some (s, one)
  | b :: rest =>
    if h4 : (b :: rest).length < 4 then none
    else
      if hsz : ((b :: rest).drop 4).length < readLE4 (b :: rest) then none
      else
        match dispatchMessage (((b :: rest).drop 4).take (readLE4 (b :: rest))) s with
        | none => none
        | some (s2, w) =>
          dispatchBatchAux s2 (one || w) (((b :: rest).drop 4).drop (readLE4 (b :: rest)))
  termination_by l => l.length
  decreasing_by
    simp only [List.length_drop]
    simp only [not_lt] at h4
    omega

/-- `dispatch_batch` on one inbound binary frame, starting with no stall
request. -/
def dispatchBatch (data : List Nat) (s : DispatchState) :
    Option (DispatchState × Bool) :=
  dispatchBatchAux s false data

/-- `Connection::try_receive` (src/networking.rs:377-402): pull binary frames
from the transport in order and dispatch each one; stop when a frame's
dispatch requests a stall (the code pretends to be blocked) or when the
transport would block (the frame list is exhausted). Returns the dispatch
state and the frames left unread in this cycle; `none` propagates a panic
from dispatching. -/
def tryReceive : List (List Nat) → DispatchState → Option (DispatchState × List (List Nat))
  | [], s => some (s, [])
  | f :: fs, s =>
    match dispatchBatch f s with
    | none => none
    | some (s2, true) => some (s2, fs)
    | some (s2, false) => tryReceive fs s2

/-- `Connection` (src/networking.rs:300-307), without the WebSocket handle:
the peer's observed turn counter, the stall counter, the pending outbound
batch buffers (the last one is the current append target), and the soft cap
`batch_message_bytes`. -/
structure Connection where
  n_turns : Nat
  n_turns_since_own_turn : Nat
  out_batches : List (List Nat)
  batch_message_bytes : Nat
  deriving DecidableEq

/-- `Connection::new` (src/networking.rs:311-326): zeroed counters and a
single fresh batch buffer. -/
def Connection.new (batch_message_bytes : Nat) : Connection :=
  { n_turns := 0,
    n_turns_since_own_turn := 0,
    out_batches := [[]],
    batch_message_bytes := batch_message_bytes }

/-- The last (current tail) batch buffer of a batch list. -/
def lastBuf : List (List Nat) → List Nat
  | [] => []
  | [t] => t
  | _ :: b :: rest => lastBuf (b :: rest)

/-- Apply a function to the last buffer of a batch list. -/
def mapLast (g : List Nat → List Nat) : List (List Nat) → List (List Nat)
  | [] => []
  | [t] => [g t]
  | b :: b2 :: rest => b :: mapLast g (b2 :: rest)

/-- `Connection::enqueue_in_batch` (src/networking.rs:328-350) together with
the caller's payload write: if the tail buffer's length is strictly below
`batch_message_bytes - message_size` it is appended to, otherwise a new
buffer is pushed and appended to; either way the `u32` length prefix `sz`
and then the `sz` payload bytes written by the caller through the returned
`&mut Vec<u8>` land contiguously at the end of the chosen buffer. The `Nat`
subtraction in the guard matches the Rust `usize` subtraction whenever
`sz ≤ cap`; the underflowing case is modelled separately by `checkedSub` and
`wrapSub` below. -/
def enqueueMsg (cap sz : Nat) (body : List Nat) : List (List Nat) → List (List Nat)
  | [] => [leBytes 4 sz ++ body]
  | [t] =>
    if t.length < cap - sz then [t ++ (leBytes 4 sz ++ body)]
    else [t, leBytes 4 sz ++ body]
  | b :: b2 :: rest => b :: enqueueMsg cap sz body (b2 :: rest)

/-- `Connection::try_send_pending` (src/networking.rs:352-375): drain every
pending batch to the WebSocket as one binary frame each, in order, then push
a single fresh empty buffer. The returned list is the sequence of frames
written (a `WouldBlock` from the socket is absorbed: tungstenite keeps the
frame queued in order, so it does not change the sequence). -/
def trySendPending (c : Connection) : List (List Nat) × Connection :=
  (c.out_batches, { c with out_batches := [[]] })

/-- `Networking` (src/networking.rs:25-38), without the TCP listener; only
the length of the `network` address list is observable to the modelled
operations. -/
structure Networking where
  machine_id : Nat
  batch_message_bytes : Nat
  n_turns : Nat
  acceptable_turn_distance : Nat
  turn_sleep_distance_ratio : Nat
  network_len : Nat
  network_connections : List (Option Connection)
  deriving DecidableEq

/-- The per-peer sleep candidate of the first loop of `finish_turn`
(src/networking.rs:159-168): `some` of the milliseconds hint when the peer
lags by more than `acceptable_turn_distance`, `none` otherwise. -/
def sleepCandidate (net : Networking) : Option Connection → Option Nat
  | some c =>
    if c.n_turns + net.acceptable_turn_distance < net.n_turns then
      some ((net.n_turns - net.acceptable_turn_distance - c.n_turns) /
        net.turn_sleep_distance_ratio)
    else none
  | none => none

/-- The 6-byte body of a turn marker as written by `finish_turn`
(src/networking.rs:179-180): `u16` ShortTypeId 0 followed by the local turn
counter cast to `u32` (`self.n_turns as u32`). -/
def turnMarkerBody (t : Nat) : List Nat :=
  leBytes 2 0 ++ leBytes 4 (t % 4294967296)

/-- The per-connection effect of the second loop of `finish_turn`
(src/networking.rs:172-184): enqueue the turn marker (message size
`size_of::<ShortTypeId>() + size_of::<u32>() = 6`) and reset the stall
counter. -/
def finishTurnStep (newTurns : Nat) (c : Connection) : Connection :=
  { c with
      out_batches := enqueueMsg c.batch_message_bytes 6 (turnMarkerBody newTurns) c.out_batches,
      n_turns_since_own_turn := 0 }

/-- One step of the sleep-hint loop of `finish_turn`: `should_sleep` is
OVERWRITTEN with the candidate whenever the peer lags, and kept otherwise. -/
def hintStep (net : Networking) (acc : Option Nat) (mc : Option Connection) : Option Nat :=
  match sleepCandidate net mc with
  | some v => some v
  | none => acc

/-- `Networking::finish_turn` (src/networking.rs:156-187): compute the sleep
hint by overwriting it for each lagging connected peer in iteration order,
then increment the local turn counter, then write a turn marker to every
connected peer and reset its stall counter. Returns the new state and the
hint in milliseconds. -/
def finishTurn (net : Networking) : Networking × Option Nat :=
  let hint := net.network_connections.foldl (hintStep net) none
  ({ net with
      n_turns := net.n_turns + 1,
      network_connections :=
        net.network_connections.map (Option.map (finishTurnStep (net.n_turns + 1))) },
   hint)

/-- Modelled from the spec: `broadcast_machine_id()` comes from the id module,
which is not under src/; the spec says one reserved machine-id value denotes
broadcast. Only its distinguishability from real machine ids matters here. -/
def broadcastMachineId : Nat := 255

/-- In-place update of one peer slot, as the Rust loop body of `enqueue`
mutates `self.network_connections[machine_id]`. -/
def updateSlot : List (Option Connection) → Nat → (Connection → Connection) →
    List (Option Connection)
  | [], _, _ => []
  | mc :: rest, 0, f => mc.map f :: rest
  | mc :: rest, i + 1, f => mc :: updateSlot rest i f

/-- The per-connection effect of `Networking::enqueue`
(src/networking.rs:253-269): reserve `size_of::<ShortTypeId>() + packet_size`
bytes in the batch, write the `u16` type id, then compact the packet into
the remaining region (`packetBytes` is the byte image the compact encoding
produces; it is the same for every recipient). -/
def enqueuePacketStep (typeId : Nat) (packetBytes : List Nat) (c : Connection) : Connection :=
  { c with
      out_batches :=
        enqueueMsg c.batch_message_bytes (2 + packetBytes.length)
          (leBytes 2 typeId ++ packetBytes) c.out_batches }

/-- `Networking::enqueue` (src/networking.rs:238-272): nothing happens in a
single-machine network; otherwise the recipient list is every machine index
for a broadcast and the single target otherwise, and the message is written
to each recipient slot that holds a live connection. -/
def enqueueNet (net : Networking) (typeId recipientMachine : Nat)
    (packetBytes : List Nat) : Networking :=
  if net.network_len = 1 then net
  else
    let recipients : List Nat :=
      if recipientMachine = broadcastMachineId then List.range net.network_len
      else [recipientMachine]
    { net with
        network_connections :=
          recipients.foldl
            (fun conns i => updateSlot conns i (enqueuePacketStep typeId packetBytes))
            net.network_connections }

/-- Follows the spec's words, for comparison with `finishTurn`: the sleep
hint as the maximum candidate over all lagging connected peers. -/
def specSleepHintMax (net : Networking) : Option Nat :=
  net.network_connections.foldl
    (fun acc mc =>
      match sleepCandidate net mc, acc with
      | some v, none => some v
      | some v, some a => some (max a v)
      | none, acc2 => acc2)
    none

/-- Debug-build `usize` subtraction: `none` models the overflow panic. -/
def checkedSub (a b : Nat) : Option Nat :=
  if b ≤ a then some (a - b) else none

/-- Release-build wrapping `usize` subtraction at word width `w`
(for arguments below `2 ^ w`). -/
def wrapSub (w a b : Nat) : Nat :=
  (2 ^ w + a - b) % 2 ^ w

/-- The tail-selection guard of `enqueue_in_batch` (src/networking.rs:337)
under release-build wrapping arithmetic:
`tail_len < batch_message_bytes - message_size`. -/
def useTailWrap (w cap sz tailLen : Nat) : Bool :=
  decide (tailLen < wrapSub w cap sz)

/-- First `some` value of `g` along a list (used to state which peer's
candidate survives the overwriting loop of `finish_turn`). -/
def firstSome? {α β : Type} (g : α → Option β) : List α → Option β
  | [] => none
  | a :: l => match g a with | some v => some v | none => firstSome? g l

/-! Helper lemmas. -/

theorem leBytes_length : ∀ k n, (leBytes k n).length = k
  | 0, _ => rfl
  | k + 1, n => by simp [leBytes, leBytes_length k (n / 256)]

theorem readLE4_leBytes4 (n : Nat) : readLE4 (leBytes 4 n) = n % 4294967296 := by
  simp only [leBytes, readLE4]
  omega

theorem enqueueMsg_join (cap sz : Nat) (body : List Nat) :
    ∀ bs : List (List Nat),
      (enqueueMsg cap sz body bs).flatten = bs.flatten ++ (leBytes 4 sz ++ body)
  | [] => by simp [enqueueMsg]
  | [t] => by
    by_cases h : t.length < cap - sz <;> simp [enqueueMsg, h]
  | b :: b2 :: rest => by
    have ih := enqueueMsg_join cap sz body (b2 :: rest)
    simp only [enqueueMsg, List.flatten_cons, ih]
    simp [List.append_assoc]

theorem firstSome?_append {α β : Type} (g : α → Option β) :
    ∀ l₁ l₂ : List α,
      firstSome? g (l₁ ++ l₂) =
        match firstSome? g l₁ with | some v => some v | none => firstSome? g l₂
  | [], l₂ => by simp [firstSome?]
  | a :: t, l₂ => by
    cases h : g a <;> simp [firstSome?, h, firstSome?_append g t l₂]

theorem firstSome?_eq_none {α β : Type} (g : α → Option β) :
    ∀ l : List α, firstSome? g l = none ↔ ∀ x ∈ l, g x = none
  | [] => by simp [firstSome?]
  | a :: t => by
    cases h : g a <;> simp [firstSome?, h, firstSome?_eq_none g t]

theorem foldl_hintStep (net : Networking) :
    ∀ (l : List (Option Connection)) (init : Option Nat),
      l.foldl (hintStep net) init =
        match firstSome? (sleepCandidate net) l.reverse with
        | some v => some v
        | none => init
  | [], init => by simp [firstSome?]
  | x :: xs, init => by
    have ih := foldl_hintStep net xs (hintStep net init x)
    simp only [List.foldl_cons, List.reverse_cons, ih, firstSome?_append]
    cases h1 : firstSome? (sleepCandidate net) xs.reverse <;>
      cases h2 : sleepCandidate net x <;>
        simp [firstSome?, hintStep, h1, h2]

theorem updateSlot_getElem? (f : Connection → Connection) :
    ∀ (conns : List (Option Connection)) (i j : Nat),
      (updateSlot conns i f)[j]? =
        if j = i then (conns[j]?).map (Option.map f) else conns[j]?
  | [], i, j => by simp [updateSlot]
  | mc :: rest, 0, 0 => by simp [updateSlot]
  | mc :: rest, 0, j + 1 => by simp [updateSlot]
  | mc :: rest, i + 1, 0 => by simp [updateSlot]
  | mc :: rest, i + 1, j + 1 => by
    simp [updateSlot, updateSlot_getElem? f rest i j]

theorem foldl_updateSlot_not_mem (f : Connection → Connection) :
    ∀ (l : List Nat) (conns : List (Option Connection)) (i : Nat), i ∉ l →
      (l.foldl (fun cs j => updateSlot cs j f) conns)[i]? = conns[i]?
  | [], conns, i, _ => rfl
  | j :: rest, conns, i, h => by
    have hne : i ≠ j := fun he => h (he ▸ List.mem_cons_self j rest)
    have hrest : i ∉ rest := fun hm => h (List.mem_cons_of_mem j hm)
    simp only [List.foldl_cons]
    rw [foldl_updateSlot_not_mem f rest _ i hrest, updateSlot_getElem?, if_neg hne]

theorem foldl_updateSlot_nodup (f : Connection → Connection) :
    ∀ (l : List Nat) (conns : List (Option Connection)) (i : Nat),
      l.Nodup → i ∈ l →
      (l.foldl (fun cs j => updateSlot cs j f) conns)[i]? =
        (conns[i]?).map (Option.map f)
  | [], _, i, _, hi => absurd hi (List.not_mem_nil i)
  | j :: rest, conns, i, hnd, hi => by
    simp only [List.foldl_cons]
    rcases List.mem_cons.mp hi with he | hm
    · subst he
      have hrest : i ∉ rest := (List.nodup_cons.mp hnd).1
      rw [foldl_updateSlot_not_mem f rest _ i hrest, updateSlot_getElem?, if_pos rfl]
    · have hnd' : rest.Nodup := (List.nodup_cons.mp hnd).2
      rw [foldl_updateSlot_nodup f rest _ i hnd' hm, updateSlot_getElem?]
      by_cases he : i = j
      · subst he
        exact absurd hm (List.nodup_cons.mp hnd).1
      · rw [if_neg he]

theorem updateSlot_map_proj {α : Type} (proj : Connection → α)
    (f : Connection → Connection) (hf : ∀ c, proj (f c) = proj c) :
    ∀ (conns : List (Option Connection)) (i : Nat),
      (updateSlot conns i f).map (Option.map proj) = conns.map (Option.map proj)
  | [], _ => rfl
  | mc :: rest, 0 => by
    cases mc <;> simp [updateSlot, hf]
  | mc :: rest, i + 1 => by
    simp [updateSlot, updateSlot_map_proj proj f hf rest i]

theorem foldl_updateSlot_map_proj {α : Type} (proj : Connection → α)
    (f : Connection → Connection) (hf : ∀ c, proj (f c) = proj c) :
    ∀ (l : List Nat) (conns : List (Option Connection)),
      (l.foldl (fun cs j => updateSlot cs j f) conns).map (Option.map proj) =
        conns.map (Option.map proj)
  | [], _ => rfl
  | j :: rest, conns => by
    simp only [List.foldl_cons]
    rw [foldl_updateSlot_map_proj proj f hf rest _, updateSlot_map_proj proj f hf]

/-! Claim theorems. -/

/-- C1 (amended): `finish_turn` returns no sleep hint iff no connected peer
lags by more than `acceptable_turn_distance`; otherwise the hint is the
candidate `(n_turns - acceptable_turn_distance - peer_turns) /
turn_sleep_distance_ratio` of the LAST lagging connected peer in iteration
order (the source overwrites the hint per peer, so the last lagging peer
wins), not the maximum of the per-peer candidates. -/
theorem sleep_hint_last_wins (net : Networking) :
    (finishTurn net).2 = firstSome? (sleepCandidate net) net.network_connections.reverse
    ∧ ((finishTurn net).2 = none ↔
        ∀ mc ∈ net.network_connections, sleepCandidate net mc = none) := by
  have h1 : (finishTurn net).2 =
      firstSome? (sleepCandidate net) net.network_connections.reverse := by
    simp only [finishTurn]
    rw [foldl_hintStep net net.network_connections none]
    cases firstSome? (sleepCandidate net) net.network_connections.reverse <;> rfl
  refine ⟨h1, ?_⟩
  rw [h1, firstSome?_eq_none]
  constructor
  · intro h mc hmc
    exact h mc (List.mem_reverse.mpr hmc)
  · intro h mc hmc
    exact h mc (List.mem_reverse.mp hmc)

/-- C1 counterexample: with `n_turns = 100`, `acceptable_turn_distance = 10`,
`turn_sleep_distance_ratio = 1` and two lagging peers observed at turns 0 and
80 (in that order), `finish_turn` returns the hint 10 of the last lagging
peer, while the maximum per-peer candidate (of the slowest peer) is 90. So
the hint is not the maximum of the per-peer candidates and it depends on the
iteration order. -/
theorem sleep_hint_not_max_cex :
    (finishTurn
      { machine_id := 0, batch_message_bytes := 64, n_turns := 100,
        acceptable_turn_distance := 10, turn_sleep_distance_ratio := 1,
        network_len := 3,
        network_connections :=
          [none,
           some { n_turns := 0, n_turns_since_own_turn := 0, out_batches := [[]],
                  batch_message_bytes := 64 },
           some { n_turns := 80, n_turns_since_own_turn := 0, out_batches := [[]],
                  batch_message_bytes := 64 }] }).2 = some 10
    ∧ specSleepHintMax
      { machine_id := 0, batch_message_bytes := 64, n_turns := 100,
        acceptable_turn_distance := 10, turn_sleep_distance_ratio := 1,
        network_len := 3,
        network_connections :=
          [none,
           some { n_turns := 0, n_turns_since_own_turn := 0, out_batches := [[]],
                  batch_message_bytes := 64 },
           some { n_turns := 80, n_turns_since_own_turn := 0, out_batches := [[]],
                  batch_message_bytes := 64 }] } = some 90
    ∧ (some 10 : Option Nat) ≠ some 90 := by decide

/-- C2 (amended): the local `n_turns` increases by exactly one on each
`finish_turn` and is untouched by `enqueue` and `try_send_pending`; but a
peer's recorded turn counter is OVERWRITTEN with each received turn-marker
value (`*n_turns = read_u32(..)`), so it is monotone only while inbound
markers carry nondecreasing values — a marker with a smaller turn number
does decrease it. -/
theorem turn_counters_overwrite :
    (∀ net : Networking, (finishTurn net).1.n_turns = net.n_turns + 1)
    ∧ (∀ (b0 b1 : Nat) (rest : List Nat) (s s' : DispatchState) (w : Bool),
        dispatchMessage (b0 :: b1 :: rest) s = some (s', w) →
        ((b0 = 0 ∧ b1 = 0) → s'.n_turns = readLE4 rest)
        ∧ (¬ (b0 = 0 ∧ b1 = 0) → s'.n_turns = s.n_turns))
    ∧ (∀ (net : Networking) (typeId r : Nat) (p : List Nat),
        (enqueueNet net typeId r p).n_turns = net.n_turns
        ∧ (enqueueNet net typeId r p).network_connections.map
            (Option.map Connection.n_turns)
          = net.network_connections.map (Option.map Connection.n_turns))
    ∧ (∀ c : Connection, (trySendPending c).2.n_turns = c.n_turns) := by
  refine ⟨fun net => by simp [finishTurn], ?_, ?_, fun c => rfl⟩
  · intro b0 b1 rest s s' w h
    by_cases hm : b0 = 0 ∧ b1 = 0
    · refine ⟨fun _ => ?_, fun hc => absurd hm hc⟩
      simp only [dispatchMessage, if_pos hm] at h
      by_cases hl : rest.length < 4
      · rw [if_pos hl] at h
        exact absurd h (by simp)
      · rw [if_neg hl] at h
        simp only [Option.some.injEq, Prod.mk.injEq] at h
        rw [← h.1]
    · refine ⟨fun hc => absurd hc hm, fun _ => ?_⟩
      simp only [dispatchMessage, if_neg hm] at h
      cases rest with
      | nil => exact absurd h (by simp)
      | cons r rs =>
        simp only [Option.some.injEq, Prod.mk.injEq] at h
        rw [← h.1]
  · intro net typeId r p
    by_cases h : net.network_len = 1
    · simp [enqueueNet, h]
    · constructor
      · simp [enqueueNet, h]
      · simp only [enqueueNet, if_neg h]
        exact foldl_updateSlot_map_proj Connection.n_turns
          (enqueuePacketStep typeId p) (fun c => rfl) _ _

/-- C2 witness: a received turn marker carrying value 9 overwrites a recorded
counter of 2. -/
theorem turn_counters_overwrite_witness :
    (((0 : Nat) = 0 ∧ (0 : Nat) = 0) →
      ({ n_turns := 9, n_turns_since_own_turn := 1, delivered := [] } :
        DispatchState).n_turns = readLE4 [9, 0, 0, 0])
    ∧ (¬ ((0 : Nat) = 0 ∧ (0 : Nat) = 0) →
      ({ n_turns := 9, n_turns_since_own_turn := 1, delivered := [] } :
        DispatchState).n_turns =
        ({ n_turns := 2, n_turns_since_own_turn := 0, delivered := [] } :
          DispatchState).n_turns) :=
  turn_counters_overwrite.2.1 0 0 [9, 0, 0, 0]
    { n_turns := 2, n_turns_since_own_turn := 0, delivered := [] }
    { n_turns := 9, n_turns_since_own_turn := 1, delivered := [] }
    false (by decide)

/-- C2 counterexample: a turn marker carrying turn 3 received while the
recorded counter is 5 DECREASES the recorded counter to 3, so the recorded
per-peer turn count is not monotone for every sequence of inbound bytes. -/
theorem observed_turns_can_decrease_cex :
    dispatchMessage [0, 0, 3, 0, 0, 0]
        { n_turns := 5, n_turns_since_own_turn := 0, delivered := [] }
      = some ({ n_turns := 3, n_turns_since_own_turn := 1, delivered := [] }, false)
    ∧ (3 : Nat) < 5 := by decide

/-- C6 (amended): `try_send_pending` sends every pending batch — including a
tail buffer that received no writes since the last flush — as one binary
frame each, in FIFO order, then starts a single fresh empty tail buffer; in
particular a flush with no intervening enqueue transmits one empty frame. -/
theorem send_pending_fifo (c : Connection) :
    (trySendPending c).1 = c.out_batches
    ∧ (trySendPending c).2.out_batches = [[]]
    ∧ (trySendPending (trySendPending c).2).1 = [[]] :=
  ⟨rfl, rfl, rfl⟩

/-- C6 counterexample: flushing a connection whose tail buffer received no
writes since the previous flush transmits an empty batch as a frame — so it
is not the case that an untouched tail buffer is never sent. -/
theorem empty_batch_sent_cex :
    [] ∈ (trySendPending (trySendPending (Connection.new 64)).2).1 := by decide

/-- C9: the tail-selection guard of `enqueue_in_batch` computes
`batch_message_bytes - message_size` in unguarded unsigned arithmetic. With
`sz ≤ cap` the checked (debug) subtraction succeeds and the wrapping
(release) guard agrees with the plain `tail_len < cap - sz` rule; with
`sz > cap` the debug build panics (`checkedSub = none`) while the release
build wraps to `2^w - (sz - cap)`, so any realistic tail buffer keeps being
reused and the overfull tail is never retired. -/
theorem headroom_underflow (w cap sz tailLen : Nat)
    (hcap : cap < 2 ^ w) (hsz : sz < 2 ^ w) :
    (sz ≤ cap →
      checkedSub cap sz = some (cap - sz)
      ∧ (useTailWrap w cap sz tailLen = true ↔ tailLen < cap - sz))
    ∧ (cap < sz →
      checkedSub cap sz = none
      ∧ wrapSub w cap sz = 2 ^ w - (sz - cap)
      ∧ (tailLen < 2 ^ w - (sz - cap) → useTailWrap w cap sz tailLen = true)) := by
  constructor
  · intro h
    have hsub : wrapSub w cap sz = cap - sz := by
      simp only [wrapSub]
      have h1 : 2 ^ w + cap - sz = 2 ^ w + (cap - sz) := by omega
      rw [h1, Nat.add_mod_left]
      exact Nat.mod_eq_of_lt (by omega)
    refine ⟨by simp [checkedSub, h], ?_⟩
    simp [useTailWrap, hsub]
  · intro h
    have hsub : wrapSub w cap sz = 2 ^ w - (sz - cap) := by
      simp only [wrapSub]
      have h1 : 2 ^ w + cap - sz = 2 ^ w - (sz - cap) := by omega
      rw [h1]
      exact Nat.mod_eq_of_lt (by omega)
    refine ⟨?_, hsub, ?_⟩
    · simp only [checkedSub]
      rw [if_neg (by omega)]
    · intro ht
      simp [useTailWrap, hsub, ht]

/-- C9 witness: at word width 64, cap 10 and message size 20, the debug
subtraction panics and the release guard keeps selecting a tail of length
1000. -/
theorem headroom_underflow_witness :
    ((20 : Nat) ≤ 10 →
      checkedSub 10 20 = some (10 - 20)
      ∧ (useTailWrap 64 10 20 1000 = true ↔ 1000 < 10 - 20))
    ∧ ((10 : Nat) < 20 →
      checkedSub 10 20 = none
      ∧ wrapSub 64 10 20 = 2 ^ 64 - (20 - 10)
      ∧ (1000 < 2 ^ 64 - (20 - 10) → useTailWrap 64 10 20 1000 = true)) :=
  headroom_underflow 64 10 20 1000 (by norm_num) (by norm_num)

/-- C10: the turn marker carries the local turn counter truncated to a
little-endian `u32` (`self.n_turns as u32`), and the receiver records
exactly the carried `u32`; so the recorded value is the sender's counter mod
`2^32`, which equals it iff the counter is below `2^32` — and the markers
for turns `2^32` and 0 are bytewise identical. -/
theorem turn_wire_truncation (t : Nat) (s : DispatchState) :
    dispatchMessage (turnMarkerBody t) s
      = some ({ s with n_turns := t % 4294967296,
                       n_turns_since_own_turn := s.n_turns_since_own_turn + 1 },
              decide (10 ≤ s.n_turns_since_own_turn + 1))
    ∧ (t % 4294967296 = t ↔ t < 4294967296)
    ∧ turnMarkerBody (2 ^ 32) = turnMarkerBody 0 := by
  refine ⟨?_, by omega, by decide⟩
  have hbody : turnMarkerBody t = 0 :: 0 :: leBytes 4 (t % 4294967296) := by
    simp [turnMarkerBody, leBytes]
  rw [hbody]
  simp only [dispatchMessage]
  have hmm : t % 4294967296 % 4294967296 = t % 4294967296 := by omega
  simp [leBytes_length, readLE4_leBytes4, hmm]

/-- Once the accumulated stall flag of the `dispatch_batch` loop is true, the
final result of the loop is true. -/
theorem dispatchBatchAux_true : ∀ (n : Nat) (l : List Nat), l.length ≤ n →
    ∀ (s s2 : DispatchState) (b : Bool),
      dispatchBatchAux s true l = some (s2, b) → b = true := by
  intro n
  induction n with
  | zero =>
    intro l hl s s2 b h
    have hnil : l = [] := List.eq_nil_of_length_eq_zero (Nat.le_zero.mp hl)
    subst hnil
    simp only [dispatchBatchAux, Option.some.injEq, Prod.mk.injEq] at h
    exact h.2.symm
  | succ n ih =>
    intro l hl s s2 b h
    cases l with
    | nil =>
      simp only [dispatchBatchAux, Option.some.injEq, Prod.mk.injEq] at h
      exact h.2.symm
    | cons hd tl =>
      rw [dispatchBatchAux] at h
      by_cases h4 : (hd :: tl).length < 4
      · rw [dif_pos h4] at h
        exact absurd h (by simp)
      · rw [dif_neg h4] at h
        by_cases hsz : ((hd :: tl).drop 4).length < readLE4 (hd :: tl)
        · rw [dif_pos hsz] at h
          exact absurd h (by simp)
        · rw [dif_neg hsz] at h
          cases hdm : dispatchMessage (((hd :: tl).drop 4).take (readLE4 (hd :: tl))) s with
          | none =>
            rw [hdm] at h
            exact absurd h (by simp)
          | some pr =>
            obtain ⟨s3, w⟩ := pr
            rw [hdm] at h
            simp only [Bool.true_or] at h
            refine ih _ ?_ s3 s2 b h
            simp only [List.length_drop]
            simp only [not_lt] at h4
            simp only [List.length_cons] at h4 hl ⊢
            omega

/-- C3: a dispatched turn marker increments `turns_since_own_turn` and asks
for a stall exactly when the incremented counter reaches 10; once a frame's
dispatch reported a stall, `try_receive` pulls no further frames in the
current cycle (the remaining frames stay queued); dispatching never lowers
the counter, and it is reset to 0 (for every connection) only by
`finish_turn`, while `try_send_pending` leaves it untouched. -/
theorem turn_stall_dispatch :
    (∀ (b0 b1 : Nat) (rest : List Nat) (s s' : DispatchState) (w : Bool),
        b0 = 0 → b1 = 0 →
        dispatchMessage (b0 :: b1 :: rest) s = some (s', w) →
        s'.n_turns_since_own_turn = s.n_turns_since_own_turn + 1
        ∧ (w = true ↔ 10 ≤ s'.n_turns_since_own_turn))
    ∧ (∀ (l : List Nat) (s s2 : DispatchState) (b : Bool),
        dispatchBatchAux s true l = some (s2, b) → b = true)
    ∧ (∀ (f : List Nat) (fs : List (List Nat)) (s s2 : DispatchState),
        dispatchBatch f s = some (s2, true) → tryReceive (f :: fs) s = some (s2, fs))
    ∧ (∀ (data : List Nat) (s s' : DispatchState) (w : Bool),
        dispatchMessage data s = some (s', w) →
        s.n_turns_since_own_turn ≤ s'.n_turns_since_own_turn)
    ∧ (∀ (net : Networking) (mc : Option Connection),
        mc ∈ (finishTurn net).1.network_connections →
        ∀ c : Connection, mc = some c → c.n_turns_since_own_turn = 0)
    ∧ (∀ c : Connection,
        (trySendPending c).2.n_turns_since_own_turn = c.n_turns_since_own_turn) := by
  refine ⟨?_, fun l => dispatchBatchAux_true l.length l le_rfl, ?_, ?_, ?_, fun c => rfl⟩
  · intro b0 b1 rest s s' w hb0 hb1 h
    subst hb0
    subst hb1
    simp only [dispatchMessage, and_self, if_true] at h
    by_cases hl : rest.length < 4
    · rw [if_pos hl] at h
      exact absurd h (by simp)
    · rw [if_neg hl] at h
      simp only [Option.some.injEq, Prod.mk.injEq] at h
      obtain ⟨hs, hw⟩ := h
      rw [← hs]
      refine ⟨rfl, ?_⟩
      rw [← hw]
      simp
  · intro f fs s s2 h
    simp [tryReceive, h]
  · intro data s s' w h
    cases data with
    | nil => exact absurd h (by simp [dispatchMessage])
    | cons b0 t =>
      cases t with
      | nil => exact absurd h (by simp [dispatchMessage])
      | cons b1 rest =>
        by_cases hm : b0 = 0 ∧ b1 = 0
        · simp only [dispatchMessage, if_pos hm] at h
          by_cases hl : rest.length < 4
          · rw [if_pos hl] at h
            exact absurd h (by simp)
          · rw [if_neg hl] at h
            simp only [Option.some.injEq, Prod.mk.injEq] at h
            rw [← h.1]
            simp
        · simp only [dispatchMessage, if_neg hm] at h
          cases rest with
          | nil => exact absurd h (by simp)
          | cons r rs =>
            simp only [Option.some.injEq, Prod.mk.injEq] at h
            rw [← h.1]
  · intro net mc hmc c hc
    simp only [finishTurn] at hmc
    obtain ⟨a, _, ha⟩ := List.mem_map.mp hmc
    subst hc
    cases a with
    | none => exact absurd ha (by simp)
    | some c0 =>
      have : finishTurnStep (net.n_turns + 1) c0 = c := by
        simpa using ha
      rw [← this]
      rfl

/-- C3 witness: the tenth marker since the last own turn trips the stall
flag. -/
theorem turn_stall_dispatch_witness :
    ({ n_turns := 7, n_turns_since_own_turn := 10, delivered := [] } :
        DispatchState).n_turns_since_own_turn
      = ({ n_turns := 0, n_turns_since_own_turn := 9, delivered := [] } :
          DispatchState).n_turns_since_own_turn + 1
    ∧ (true = true ↔
        10 ≤ ({ n_turns := 7, n_turns_since_own_turn := 10, delivered := [] } :
          DispatchState).n_turns_since_own_turn) :=
  turn_stall_dispatch.1 0 0 [7, 0, 0, 0]
    { n_turns := 0, n_turns_since_own_turn := 9, delivered := [] }
    { n_turns := 7, n_turns_since_own_turn := 10, delivered := [] }
    true rfl rfl (by decide)

/-- C4 (amended): a batch whose declared message length runs past the end of
the batch makes `dispatch_batch` slice out of bounds, i.e. panic — modelled
as `none` — and the panic propagates through `try_receive`, aborting the
program. There is no `MalformedBatch` error value, so the slot-clearing
path of `send_and_receive` (which only handles transport `Err` results) is
never reached for a malformed batch. -/
theorem malformed_batch_panics (data : List Nat) (s : DispatchState)
    (h4 : 4 ≤ data.length) (hover : data.length < 4 + readLE4 data) :
    dispatchBatch data s = none ∧ tryReceive [data] s = none := by
  have hb : dispatchBatch data s = none := by
    cases data with
    | nil => simp at h4
    | cons b rest =>
      rw [dispatchBatch, dispatchBatchAux]
      rw [dif_neg (by omega), dif_pos (by rw [List.length_drop]; omega)]
  exact ⟨hb, by simp [tryReceive, hb]⟩

/-- C4 witness: the batch `[10,0,0,0]` declares a 10-byte message but carries
no payload bytes; dispatching it panics. -/
theorem malformed_batch_panics_witness :
    dispatchBatch [10, 0, 0, 0]
        { n_turns := 0, n_turns_since_own_turn := 0, delivered := [] } = none
    ∧ tryReceive [[10, 0, 0, 0]]
        { n_turns := 0, n_turns_since_own_turn := 0, delivered := [] } = none :=
  malformed_batch_panics [10, 0, 0, 0]
    { n_turns := 0, n_turns_since_own_turn := 0, delivered := [] }
    (by decide) (by decide)

/-- C4 counterexample: on the batch `[7,0,0,0,1]` (declared length 7, one
payload byte) the receive path yields `none` — the out-of-bounds panic —
rather than an error value that would be handled by clearing the peer slot
and continuing. -/
theorem malformed_batch_aborts_cex :
    tryReceive [[7, 0, 0, 0, 1]]
        { n_turns := 0, n_turns_since_own_turn := 0, delivered := [] } = none := by
  have hb : dispatchBatch [7, 0, 0, 0, 1]
      { n_turns := 0, n_turns_since_own_turn := 0, delivered := [] } = none := by
    rw [dispatchBatch, dispatchBatchAux]
    rw [dif_neg (by decide), dif_pos (by decide)]
  simp [tryReceive, hb]

/-- Tail-selection case of `enqueue_in_batch`: when the tail buffer still has
headroom it is extended in place. -/
theorem enqueueMsg_useTail (cap sz : Nat) (body : List Nat) :
    ∀ bs : List (List Nat), bs ≠ [] → (lastBuf bs).length < cap - sz →
      enqueueMsg cap sz body bs = mapLast (fun t => t ++ (leBytes 4 sz ++ body)) bs
  | [], h, _ => absurd rfl h
  | [t], _, hlt => by
    simp only [lastBuf] at hlt
    simp [enqueueMsg, mapLast, if_pos hlt]
  | b :: b2 :: rest, _, hlt => by
    have ih := enqueueMsg_useTail cap sz body (b2 :: rest) (by simp)
      (by simpa [lastBuf] using hlt)
    simp [enqueueMsg, mapLast, ih]

/-- New-buffer case of `enqueue_in_batch`: when the tail buffer lacks
headroom a new buffer is pushed and written. -/
theorem enqueueMsg_newBuf (cap sz : Nat) (body : List Nat) :
    ∀ bs : List (List Nat), bs ≠ [] → ¬ (lastBuf bs).length < cap - sz →
      enqueueMsg cap sz body bs = bs ++ [leBytes 4 sz ++ body]
  | [], h, _ => absurd rfl h
  | [t], _, hlt => by
    simp only [lastBuf] at hlt
    simp [enqueueMsg, if_neg hlt]
  | b :: b2 :: rest, _, hlt => by
    have ih := enqueueMsg_newBuf cap sz body (b2 :: rest) (by simp)
      (by simpa [lastBuf] using hlt)
    simp [enqueueMsg, ih]

/-- The batch-cap bound is preserved by one enqueue. -/
theorem enqueueMsg_bound (cap sz M : Nat) (body : List Nat)
    (hszcap : sz ≤ cap) (hbody : body.length = sz) (hM : 4 + sz ≤ M) :
    ∀ bs : List (List Nat), (∀ b ∈ bs, b.length ≤ cap + M) →
      ∀ b ∈ enqueueMsg cap sz body bs, b.length ≤ cap + M
  | [], _, b, hb => by
    simp only [enqueueMsg, List.mem_singleton] at hb
    subst hb
    simp only [List.length_append, leBytes_length, hbody]
    omega
  | [t], hbs, b, hb => by
    by_cases hlt : t.length < cap - sz
    · simp only [enqueueMsg, if_pos hlt, List.mem_singleton] at hb
      subst hb
      simp only [List.length_append, leBytes_length, hbody]
      omega
    · simp only [enqueueMsg, if_neg hlt, List.mem_cons, List.mem_singleton,
        List.not_mem_nil, or_false] at hb
      rcases hb with rfl | rfl
      · exact hbs b (by simp)
      · simp only [List.length_append, leBytes_length, hbody]
        omega
  | b0 :: b2 :: rest, hbs, b, hb => by
    simp only [enqueueMsg, List.mem_cons] at hb
    rcases hb with rfl | hb
    · exact hbs b (by simp)
    · exact enqueueMsg_bound cap sz M body hszcap hbody hM (b2 :: rest)
        (fun x hx => hbs x (by simp [hx])) b (by simpa using hb)

/-- C5: under the precondition `sz ≤ cap` (required for the unsigned
subtraction, see C9), `enqueue_in_batch` extends the tail buffer exactly
when its length is strictly below `cap - sz` and otherwise pushes a new
buffer holding only the new message; consequently, if every message obeys
`4 + sz ≤ M` (length prefix plus payload at most the maximal single message
size), every batch buffer stays at most `cap + M` bytes long. -/
theorem enqueue_in_batch_rule (cap sz : Nat) (body : List Nat)
    (bs : List (List Nat)) (M : Nat)
    (hszcap : sz ≤ cap) (hne : bs ≠ []) (hbody : body.length = sz) :
    ((lastBuf bs).length < cap - sz →
        enqueueMsg cap sz body bs = mapLast (fun t => t ++ (leBytes 4 sz ++ body)) bs)
    ∧ (¬ (lastBuf bs).length < cap - sz →
        enqueueMsg cap sz body bs = bs ++ [leBytes 4 sz ++ body])
    ∧ ((∀ b ∈ bs, b.length ≤ cap + M) → 4 + sz ≤ M →
        ∀ b ∈ enqueueMsg cap sz body bs, b.length ≤ cap + M) :=
  ⟨enqueueMsg_useTail cap sz body bs hne,
   enqueueMsg_newBuf cap sz body bs hne,
   fun hbs hM => enqueueMsg_bound cap sz M body hszcap hbody hM bs hbs⟩

/-- C5 witness: cap 10, message size 3 on a tail of length 1. -/
theorem enqueue_in_batch_rule_witness :
    ((lastBuf [[1]]).length < 10 - 3 →
        enqueueMsg 10 3 [9, 9, 9] [[1]]
          = mapLast (fun t => t ++ (leBytes 4 3 ++ [9, 9, 9])) [[1]])
    ∧ (¬ (lastBuf [[1]]).length < 10 - 3 →
        enqueueMsg 10 3 [9, 9, 9] [[1]] = [[1]] ++ [leBytes 4 3 ++ [9, 9, 9]])
    ∧ ((∀ b ∈ [[1]], b.length ≤ 10 + 7) → 4 + 3 ≤ 7 →
        ∀ b ∈ enqueueMsg 10 3 [9, 9, 9] [[1]], b.length ≤ 10 + 7) :=
  enqueue_in_batch_rule 10 3 [9, 9, 9] [[1]] 7 (by decide) (by decide) (by decide)

/-- C7: a broadcast enqueue in a single-machine network does nothing at all;
in a larger network it applies the identical message append exactly once to
every slot (so every live connection receives exactly one copy and empty
slots — in particular the always-empty self slot — stay empty), and the
bytes appended to a connection's outbound stream are the length prefix
`2 + |packet|`, the `u16` type id and the packet image. -/
theorem broadcast_fanout (net : Networking) (typeId : Nat) (pkt : List Nat) :
    (net.network_len = 1 → enqueueNet net typeId broadcastMachineId pkt = net)
    ∧ (net.network_len ≠ 1 → net.network_connections.length = net.network_len →
        (∀ i : Nat,
          (enqueueNet net typeId broadcastMachineId pkt).network_connections[i]? =
            (net.network_connections[i]?).map (Option.map (enqueuePacketStep typeId pkt)))
        ∧ (net.network_connections[net.machine_id]? = some none →
            (enqueueNet net typeId broadcastMachineId pkt).network_connections[net.machine_id]?
              = some none))
    ∧ (∀ c : Connection,
        (enqueuePacketStep typeId pkt c).out_batches.flatten =
          c.out_batches.flatten ++
            (leBytes 4 (2 + pkt.length) ++ (leBytes 2 typeId ++ pkt))) := by
  refine ⟨fun h => by simp [enqueueNet, h], fun h hlen => ?_,
    fun c => by simp [enqueuePacketStep, enqueueMsg_join]⟩
  have hconns : (enqueueNet net typeId broadcastMachineId pkt).network_connections =
      (List.range net.network_len).foldl
        (fun cs j => updateSlot cs j (enqueuePacketStep typeId pkt))
        net.network_connections := by
    simp [enqueueNet, if_neg h]
  have hall : ∀ i : Nat,
      (enqueueNet net typeId broadcastMachineId pkt).network_connections[i]? =
        (net.network_connections[i]?).map (Option.map (enqueuePacketStep typeId pkt)) := by
    intro i
    rw [hconns]
    by_cases hi : i < net.network_len
    · exact foldl_updateSlot_nodup _ _ _ i (List.nodup_range _) (List.mem_range.mpr hi)
    · rw [foldl_updateSlot_not_mem _ _ _ i (fun hm => hi (List.mem_range.mp hm))]
      have hnone : net.network_connections[i]? = none := by
        rw [List.getElem?_eq_none]
        omega
      rw [hnone]
      rfl
  refine ⟨hall, fun hself => ?_⟩
  rw [hall net.machine_id, hself]
  rfl

/-- C7 witness: a three-machine network with machine 0 local (self slot
empty) and live connections to machines 1 and 2. -/
theorem broadcast_fanout_witness :
    (∀ i : Nat,
      (enqueueNet
        { machine_id := 0, batch_message_bytes := 16, n_turns := 0,
          acceptable_turn_distance := 30, turn_sleep_distance_ratio := 5,
          network_len := 3,
          network_connections := [none, some (Connection.new 16), some (Connection.new 16)] }
        7 broadcastMachineId [1, 2]).network_connections[i]? =
        (([none, some (Connection.new 16), some (Connection.new 16)] :
          List (Option Connection))[i]?).map (Option.map (enqueuePacketStep 7 [1, 2])))
    ∧ (([none, some (Connection.new 16), some (Connection.new 16)] :
          List (Option Connection))[(0 : Nat)]? = some none →
        (enqueueNet
          { machine_id := 0, batch_message_bytes := 16, n_turns := 0,
            acceptable_turn_distance := 30, turn_sleep_distance_ratio := 5,
            network_len := 3,
            network_connections := [none, some (Connection.new 16), some (Connection.new 16)] }
          7 broadcastMachineId [1, 2]).network_connections[(0 : Nat)]? = some none) :=
  (broadcast_fanout
    { machine_id := 0, batch_message_bytes := 16, n_turns := 0,
      acceptable_turn_distance := 30, turn_sleep_distance_ratio := 5,
      network_len := 3,
      network_connections := [none, some (Connection.new 16), some (Connection.new 16)] }
    7 [1, 2]).2.1 (by decide) (by decide)

/-- C8: `finish_turn` first increments the local `n_turns` and then appends
to every connected peer's outbound stream exactly the 10-byte turn marker —
`u32` little-endian length 6, `u16` little-endian type id 0, `u32`
little-endian new `n_turns` (truncated to 32 bits) — and resets that peer's
`turns_since_own_turn` to 0, leaving its observed turn counter unchanged;
empty slots stay empty. -/
theorem finish_turn_marker (net : Networking) :
    (finishTurn net).1.n_turns = net.n_turns + 1
    ∧ (∀ i : Nat,
        (finishTurn net).1.network_connections[i]? =
          (net.network_connections[i]?).map (Option.map (finishTurnStep (net.n_turns + 1))))
    ∧ (∀ c : Connection,
        (finishTurnStep (net.n_turns + 1) c).out_batches.flatten =
          c.out_batches.flatten ++
            (leBytes 4 6 ++ (leBytes 2 0 ++ leBytes 4 ((net.n_turns + 1) % 4294967296)))
        ∧ (finishTurnStep (net.n_turns + 1) c).n_turns_since_own_turn = 0
        ∧ (finishTurnStep (net.n_turns + 1) c).n_turns = c.n_turns)
    ∧ (leBytes 4 6 ++ (leBytes 2 0 ++ leBytes 4 ((net.n_turns + 1) % 4294967296))).length
        = 10 := by
  refine ⟨by simp [finishTurn], fun i => ?_, fun c => ⟨?_, rfl, rfl⟩, ?_⟩
  · simp [finishTurn]
  · simp [finishTurnStep, enqueueMsg_join, turnMarkerBody]
  · simp [leBytes_length]

end Kay
